import Mathlib

set_option maxHeartbeats 1000000

/-!
Verification of the `SpectralModel` wrapper
(`pyspeckit/spectrum/models/model.py`): the parameter-descriptor builder
`_make_parinfo`, the multi-peak composer `n_modelfunc`, the data
sanitization step of `fitter`, and the result accessors `slope`,
`annotations` and `integral`, shallowly embedded in Lean.
-/

namespace PySpecKit

/-- Python scalar values that may appear in the heterogeneous
per-parameter sequences handed to `_make_parinfo` (numbers, booleans
from the `np.zeros(..., dtype=bool)` defaults, and strings for ties). -/
inductive PV where
  | bool (b : Bool)
  | num (q : Rat)
  | str (s : String)
deriving DecidableEq, Repr

/-- Python truthiness, as used by the `tied` field of the parinfo dict
(source line 133: `partied[idx] if partied[idx] else ""`). -/
def PV.truthy : PV → Bool
  | .bool b => b
  | .num q => q != 0
  | .str s => s != ""

/-- Failure conditions surfaced by the embedded methods
(spec taxonomy: `ConflictingArguments`, `InvalidInput`; `attributeError`
models the Python AttributeError/TypeError raised when a required
attribute or array is missing). -/
inductive Err where
  | conflictingArguments
  | attributeError
  | invalidInput
deriving DecidableEq, Repr

/-- Decidable equality for `Except`, so concrete witnesses can be
checked by `decide`. -/
instance {X Y : Type} [DecidableEq X] [DecidableEq Y] : DecidableEq (Except X Y) :=
  fun x y =>
    match x, y with
    | .error e1, .error e2 =>
      if h : e1 = e2 then isTrue (by rw [h])
      else isFalse (fun hc => h (Except.error.inj hc))
    | .ok a1, .ok a2 =>
      if h : a1 = a2 then isTrue (by rw [h])
      else isFalse (fun hc => h (Except.ok.inj hc))
    | .error _, .ok _ => isFalse (fun hc => Except.noConfusion hc)
    | .ok _, .error _ => isFalse (fun hc => Except.noConfusion hc)

/-- One entry of the parameter descriptor table: the dict built at source
lines 125-135, field for field. -/
structure ParInfoEntry where
  n : Nat
  value : PV
  step : PV
  limits : PV × PV
  limited : PV × PV
  fixed : PV
  parname : String
  error : PV
  tied : PV
deriving DecidableEq, Repr

/-- The keyword arguments of `_make_parinfo` (source lines 64-73).
`kwargs` is the residual keyword mapping that the builder passes through
untouched.  Defaults mirror the Python defaults; in particular
`shortvarnames` defaults to the tuple `("A", "\\Delta x", "\\sigma")`. -/
structure MPArgs where
  params : Option (List PV) := none
  parnames : Option (List String) := none
  parvalues : Option (List PV) := none
  parlimits : Option (List (PV × PV)) := none
  parlimited : Option (List (PV × PV)) := none
  parfixed : Option (List PV) := none
  parerror : Option (List PV) := none
  partied : Option (List PV) := none
  fitunits : Option String := none
  parsteps : Option (List PV) := none
  npeaks : Nat := 1
  shortvarnames : Option (List String) := some ["A", "\\Delta x", "\\sigma"]
  names : Option (List String) := none
  values : Option (List PV) := none
  limits : Option (List (PV × PV)) := none
  limited : Option (List (PV × PV)) := none
  fixed : Option (List PV) := none
  error : Option (List PV) := none
  tied : Option (List PV) := none
  steps : Option (List PV) := none
  negamp : Option Bool := none
  limitedmin : Option (List PV) := none
  limitedmax : Option (List PV) := none
  minpars : Option (List PV) := none
  maxpars : Option (List PV) := none
  kwargs : List (String × PV) := []

/-- The instance attributes of `SpectralModel` read or written by
`_make_parinfo`: `self.npars`, `self.parnames`, `self.shortvarnames`,
`self.fitunits`, `self.npeaks`, `self.parinfo`.  `parnames = none`
models the attribute being absent or `None`. -/
structure ModelState where
  npars : Nat
  parnames : Option (List String)
  shortvarnames : Option (List String)
  fitunits : Option String
  npeaks : Nat
  parinfo : List ParInfoEntry
deriving DecidableEq, Repr

/-- Returns `a` if it is not `None`, else `b`: the net effect of the
alias-overwrite loop at source lines 76-80 (`if names is not None:
parnames = names`, etc. — the short alias unconditionally wins). -/
def optOr {α : Type} (a b : Option α) : Option α :=
  match a with
  | some x => some x
  | none => b

/-- Lines 82-85: `params` and `parvalues` must not both be supplied;
when only `params` is given it becomes the initial-value sequence. -/
def resolveValues (params parvalues : Option (List PV)) :
    Except Err (Option (List PV)) :=
  match params, parvalues with
  | some _, some _ => .error Err.conflictingArguments
  | some p, none => .ok (some p)
  | none, v => .ok v

/-- Lines 87-90: resolve the effective parameter-name list, falling back
to the stored instance attribute.  When neither is available the source
raises (AttributeError at line 89, or at the `.upper()` call later). -/
def resolveParnames (stored : Option (List String)) (arg : Option (List String)) :
    Except Err (List String) :=
  match arg with
  | some pn => .ok pn
  | none =>
    match stored with
    | some pn => .ok pn
    | none => .error Err.attributeError

/-- The `(False,)*len(parnames)` filler tuple of lines 98, 100, 106, 108. -/
def falseFill (n : Nat) : List PV := List.replicate n (PV.bool false)

/-- Lines 94-108: synthesize the `parlimits` pair-sequence from the
convenience forms, `limitedmin`/`limitedmax` first, then
`minpars`/`maxpars`; a later write overwrites an earlier one. -/
def synthLimits (pnLen : Nat) (parlimits0 : Option (List (PV × PV)))
    (limitedmin limitedmax minpars maxpars : Option (List PV)) :
    Option (List (PV × PV)) :=
  let afterLimited :=
    match limitedmin, limitedmax with
    | some lmin, some lmax => some (List.zip lmin lmax)
    | some lmin, none => some (List.zip lmin (falseFill pnLen))
    | none, some lmax => some (List.zip (falseFill pnLen) lmax)
    | none, none => parlimits0
  match minpars, maxpars with
  | some mn, some mx => some (List.zip mn mx)
  | some mn, none => some (List.zip mn (falseFill pnLen))
  | none, some mx => some (List.zip (falseFill pnLen) mx)
  | none, none => afterLimited

/-- The `np.zeros(npars*npeaks, dtype=bool)` default sequence used for
every unspecified per-parameter argument (lines 116-118). -/
def zerosBool (total : Nat) : List PV := List.replicate total (PV.bool false)

/-- Python `str.upper()` over the character list (ASCII names). -/
def strUpper (s : String) : String := String.mk (s.data.map Char.toUpper)

/-- One parinfo dict entry (lines 125-133) for within-peak parameter `ii`
of peak `jj`.  Out-of-range indexing raises IndexError in the source;
here `List.getD` supplies a default, and the theorems carry explicit
length hypotheses so the default is never exercised. -/
def mkEntry (npars : Nat) (pn : List String)
    (tValues tSteps tFixed tError tTied : List PV)
    (tLimits tLimited : List (PV × PV)) (ii jj : Nat) : ParInfoEntry :=
  { n := ii + npars * jj
  , value := tValues.getD (ii + npars * jj) (PV.bool false)
  , step := tSteps.getD (ii + npars * jj) (PV.bool false)
  , limits := tLimits.getD (ii + npars * jj) (PV.num 0, PV.num 0)
  , limited := tLimited.getD (ii + npars * jj) (PV.bool false, PV.bool false)
  , fixed := tFixed.getD (ii + npars * jj) (PV.bool false)
  , parname := strUpper (pn.getD ii "") ++ toString jj
  , error := tError.getD (ii + npars * jj) (PV.bool false)
  , tied := if (tTied.getD (ii + npars * jj) (PV.bool false)).truthy
            then tTied.getD (ii + npars * jj) (PV.bool false) else PV.str "" }

/-- The descriptor-table comprehension at lines 125-135:
`for jj in xrange(npeaks) for ii in xrange(npars)` — peak-major order. -/
def buildParinfo (npars npeaks : Nat) (pn : List String)
    (tValues tSteps tFixed tError tTied : List PV)
    (tLimits tLimited : List (PV × PV)) : List ParInfoEntry :=
  ((List.range npeaks).map (fun jj =>
    (List.range npars).map (fun ii =>
      mkEntry npars pn tValues tSteps tFixed tError tTied tLimits tLimited ii jj))).flatten

/-- Substring containment over the character list, for `'AMP' in s`. -/
def listContainsSeq (pat l : List Char) : Bool :=
  (List.range (l.length + 1)).any (fun i => (l.drop i).take pat.length == pat)

/-- Whether a display name contains the amplitude marker `'AMP'`. -/
def strHasAMP (s : String) : Bool := listContainsSeq (['A', 'M', 'P']) s.toList

/-- Lines 140-143: `negamp=True` forces the upper bound of every
amplitude entry to 0 and enables it. -/
def negUpdTrue (p : ParInfoEntry) : ParInfoEntry :=
  if strHasAMP p.parname then
    { p with limited := (p.limited.1, PV.bool true)
           , limits := (p.limits.1, PV.num 0) }
  else p

/-- Lines 144-148: `negamp=False` forces the lower bound of every
amplitude entry to 0 and enables it. -/
def negUpdFalse (p : ParInfoEntry) : ParInfoEntry :=
  if strHasAMP p.parname then
    { p with limited := (PV.bool true, p.limited.2)
           , limits := (PV.num 0, p.limits.2) }
  else p

/-- The whole `negamp` post-processing step (lines 138-148). -/
def applyNegamp (negamp : Option Bool) (tbl : List ParInfoEntry) :
    List ParInfoEntry :=
  match negamp with
  | none => tbl
  | some true => tbl.map negUpdTrue
  | some false => tbl.map negUpdFalse

/-- Per-entry effect of `applyNegamp`, for stating theorems. -/
def negUpd (negamp : Option Bool) (p : ParInfoEntry) : ParInfoEntry :=
  match negamp with
  | none => p
  | some true => negUpdTrue p
  | some false => negUpdFalse p

/-- The table produced by the pure tail of `_make_parinfo`
(lines 91-150) once the initial values and the effective parameter names
have been resolved: synthesize limits, fill the
`np.zeros(npars*npeaks, dtype=bool)` / `(0,0)` / `(False,False)`
defaults of lines 116-120, build the peak-major table, apply `negamp`. -/
def coreTable (st : ModelState) (a : MPArgs)
    (parvalues1 : Option (List PV)) (pn : List String) : List ParInfoEntry :=
  applyNegamp a.negamp (buildParinfo st.npars a.npeaks pn
    (parvalues1.getD (zerosBool (st.npars * a.npeaks)))
    ((optOr a.steps a.parsteps).getD (zerosBool (st.npars * a.npeaks)))
    ((optOr a.fixed a.parfixed).getD (zerosBool (st.npars * a.npeaks)))
    ((optOr a.error a.parerror).getD (zerosBool (st.npars * a.npeaks)))
    ((optOr a.tied a.partied).getD (zerosBool (st.npars * a.npeaks)))
    ((synthLimits pn.length (optOr a.limits a.parlimits)
        a.limitedmin a.limitedmax a.minpars a.maxpars).getD
      (List.replicate (st.npars * a.npeaks) (PV.num 0, PV.num 0)))
    ((optOr a.limited a.parlimited).getD
      (List.replicate (st.npars * a.npeaks) (PV.bool false, PV.bool false))))

/-- The updated instance state, the table, and the untouched residual
kwargs returned by the success path of `_make_parinfo`. -/
def makeParinfoCore (st : ModelState) (a : MPArgs)
    (parvalues1 : Option (List PV)) (pn : List String) :
    ModelState × List ParInfoEntry × List (String × PV) :=
  ({ st with
      parnames := some pn,
      shortvarnames := optOr a.shortvarnames st.shortvarnames,
      fitunits := a.fitunits,
      npeaks := a.npeaks,
      parinfo := coreTable st a parvalues1 pn },
   coreTable st a parvalues1 pn, a.kwargs)

/-- Shallow embedding of `SpectralModel._make_parinfo` (lines 64-150).
Instance-attribute writes that the source performs before a raised
exception are surfaced only on the success path here. -/
def makeParinfo (st : ModelState) (a : MPArgs) :
    Except Err (ModelState × List ParInfoEntry × List (String × PV)) :=
  match resolveValues a.params (optOr a.values a.parvalues) with
  | .error e => .error e
  | .ok parvalues1 =>
    match resolveParnames st.parnames (optOr a.names a.parnames) with
    | .error e => .error e
    | .ok pn => .ok (makeParinfoCore st a parvalues1 pn)

/-- IEEE-style sample values as seen by the sanitization step of
`fitter`: NaN, the two infinities, or a finite value. -/
inductive FP where
  | nan
  | inf
  | ninf
  | fin (q : Rat)
deriving DecidableEq, Repr

/-- The `np.isnan` test. -/
def FP.isnan : FP → Bool
  | .nan => true
  | _ => false

/-- The `np.isinf` test (true for both infinities). -/
def FP.isinf : FP → Bool
  | .inf => true
  | .ninf => true
  | _ => false

/-- The boolean mask `np.isnan(d) + np.isinf(d)` of lines 228-230. -/
def FP.isbad (d : FP) : Bool := d.isnan || d.isinf

/-- Functional view of the sanitization step (source lines 228-230):
when the data contains NaN/Inf, the error entry at every bad sample is
set to infinity and the data value to 0; with no error array the item
assignment `err[mask] = np.inf` raises (spec: `InvalidInput`). -/
def sanitizeData (data : List FP) (err : Option (List FP)) :
    Except Err (List FP × Option (List FP)) :=
  if data.any FP.isbad then
    match err with
    | none => .error Err.invalidInput
    | some e =>
      .ok (data.map (fun d => if FP.isbad d then FP.fin 0 else d),
           some (List.zipWith (fun d ev => if FP.isbad d then FP.inf else ev) data e))
  else .ok (data, err)

/-- A store of caller-owned arrays, addressed by position: the driver
receives references into it, never copies. -/
structure Store where
  arrays : List (List FP)
deriving DecidableEq, Repr

/-- Write the array at reference `r` in place. -/
def setArr (st : Store) (r : Nat) (v : List FP) : Store :=
  { arrays := st.arrays.set r v }

/-- Store-level embedding of lines 228-230 of `fitter`: the in-place
assignments `err[mask] = np.inf` (line 229) and `data[mask] = 0`
(line 230) are writes through the caller's references; line 230
recomputes its mask from the data array as it stands after line 229. -/
def fitterSanitizeRef (st : Store) (dref : Nat) (eref : Option Nat) :
    Except Err Store :=
  let data := st.arrays.getD dref []
  if data.any FP.isbad then
    match eref with
    | none => .error Err.invalidInput
    | some er =>
      let e := st.arrays.getD er []
      let st1 := setArr st er
        (List.zipWith (fun d ev => if FP.isbad d then FP.inf else ev) data e)
      let data2 := st1.arrays.getD dref []
      let st2 := setArr st1 dref
        (data2.map (fun d => if FP.isbad d then FP.fin 0 else d))
      .ok st2
  else .ok st

/-- The instance attributes read by `n_modelfunc` and the result
accessors: `self.npars`, `self.npeaks`, `self.modelfunc`,
`self.shortvarnames`, and the post-fit state `self.model`, `self.mpp`,
`self.mpperr`, `self.xax` (all absent before the first successful fit).
The model function takes the axis and one within-peak parameter slice;
the forwarded `modelfunc_kwargs` are held fixed inside it. -/
structure SpecModel where
  npars : Nat
  npeaks : Nat
  modelfunc : List Rat → List Rat → List Rat
  shortvarnames : List String
  model : Option (List Rat)
  mpp : Option (List Rat)
  mpperr : Option (List Rat)
  xax : Option (List Rat)

/-- Elementwise `v += curve` of line 162 (numpy broadcasting over two
equal-length arrays). -/
def addVec (a b : List Rat) : List Rat := List.zipWith (· + ·) a b

/-- Shallow embedding of `SpectralModel.n_modelfunc` (lines 153-164):
the peak count is `len(pars) / self.npars` (the stored `self.npeaks` is
deliberately not consulted), and each peak's slice
`pars[jj*npars:(jj+1)*npars]` is evaluated and summed into a zero
vector of the axis length. -/
def n_modelfunc (m : SpecModel) (pars : List Rat) (x : List Rat) : List Rat :=
  (List.range (pars.length / m.npars)).foldl
    (fun v jj => addVec v (m.modelfunc x ((pars.drop (jj * m.npars)).take m.npars)))
    (List.replicate x.length 0)

/-- The `np.diff` of the stored model curve (line 271). -/
def diffQ : List Rat → List Rat
  | [] => []
  | [_] => []
  | a :: b :: rest => (b - a) :: diffQ (b :: rest)

/-- Python `np.average`: NaN on an empty slice, modelled as `none`. -/
def averageQ (l : List Rat) : Option Rat :=
  match l with
  | [] => none
  | _ => some (l.sum / (l.length : Rat))

/-- Shallow embedding of `SpectralModel.slope` (lines 265-278): with no
stored model (`hasattr(self, 'model')` false, i.e. no successful fit
yet) it returns nothing.  Otherwise it averages the discrete difference
over the window `dm[xpix-1:xpix+1]` (modelled for `xpix >= 1`); an
empty window makes `np.average` NaN, which fails the `isfinite` check
and yields 0. -/
def slope (m : SpecModel) (xToPix : Rat → Nat) (xinp : Rat) : Option Rat :=
  match m.model with
  | none => none
  | some curve =>
    let dm := diffQ curve
    let xpix := xToPix xinp
    match averageQ ((dm.drop (xpix - 1)).take 2) with
    | some v => some v
    | none => some 0

/-- Format `"%8s"`: right-align into a field of width 8. -/
def pad8 (s : String) : String :=
  if s.length < 8 then String.mk (List.replicate (8 - s.length) ' ') ++ s else s

/-- One label of `annotations` (line 290).  The `Decimal` quantization
of the source (rounding to the uncertainty's leading significant digit)
is abstracted as exact rendering; no theorem below depends on the
rendered digits. -/
def formatLabel (svn : String) (jj : Nat) (v e : Rat) : String :=
  "$" ++ svn ++ "(" ++ toString jj ++ ")$=" ++ pad8 (toString v)
    ++ " $\\pm$ " ++ pad8 (toString e)

/-- Python list repetition, `svn * npeaks` of line 288. -/
def listRepeatPy {α : Type} (l : List α) (n : Nat) : List α :=
  (List.replicate n l).flatten

/-- Shallow embedding of `SpectralModel.annotations` (lines 280-295):
reading `self.mpp`/`self.mpperr` before any fit raises AttributeError;
otherwise one label per (peak, parameter) pair in peak-major order,
with the short-name list recycled if it is too short. -/
def annotations (m : SpecModel) (shortvarnames : Option (List String)) :
    Except Err (List String) :=
  match m.mpp, m.mpperr with
  | some mpp, some mpperr =>
    let svn0 := match shortvarnames with
      | some s => s
      | none => m.shortvarnames
    let svn := if svn0.length < m.npeaks * m.npars
               then listRepeatPy svn0 m.npeaks else svn0
    .ok (((List.range m.npeaks).map (fun jj =>
      (List.range m.npars).map (fun ii =>
        formatLabel (svn.getD (ii + jj * m.npars) "") jj
          (mpp.getD (ii + jj * m.npars) 0)
          (mpperr.getD (ii + jj * m.npars) 0)))).flatten)
  | _, _ => .error Err.attributeError

/-- Shallow embedding of `SpectralModel.integral` (lines 311-318): it
ignores `modelpars` and returns `self.model.sum()`; before any
successful fit `self.model` is absent and the access raises. -/
def integral (m : SpecModel) (modelpars : List Rat) : Except Err Rat :=
  match m.model with
  | none => .error Err.attributeError
  | some curve => .ok curve.sum

/-! ### Helper lemmas -/

theorem optOr_idem {α : Type} (a b : Option α) :
    optOr a (optOr a b) = optOr a b := by
  cases a <;> simp [optOr]

theorem flatten_map_range_length {α : Type} (g : Nat → List α) (n : Nat)
    (hg : ∀ j, (g j).length = n) :
    ∀ P, (((List.range P).map g).flatten).length = P * n := by
  intro P
  induction P with
  | zero => simp
  | succ P ih =>
    rw [List.range_succ, List.map_append, List.flatten_append]
    simp [ih, hg, Nat.succ_mul]

theorem flatten_map_range_get {α : Type} (g : Nat → List α) (n : Nat)
    (hg : ∀ j, (g j).length = n) :
    ∀ P jj ii, jj < P → ii < n →
      (((List.range P).map g).flatten)[jj * n + ii]? = (g jj)[ii]? := by
  intro P
  induction P with
  | zero => intro jj ii hjj _; exact absurd hjj (Nat.not_lt_zero jj)
  | succ P ih =>
    intro jj ii hjj hii
    rw [List.range_succ, List.map_append, List.flatten_append]
    by_cases hj : jj < P
    · have hlt : jj * n + ii < (((List.range P).map g).flatten).length := by
        rw [flatten_map_range_length g n hg P]
        have h1 : jj * n + ii < (jj + 1) * n := by rw [Nat.succ_mul]; omega
        have h2 : (jj + 1) * n ≤ P * n := Nat.mul_le_mul_right n hj
        omega
      rw [List.getElem?_append_left hlt]
      exact ih jj ii hj hii
    · have hje : jj = P := by omega
      subst hje
      have hge : (((List.range jj).map g).flatten).length ≤ jj * n + ii := by
        rw [flatten_map_range_length g n hg jj]; omega
      rw [List.getElem?_append_right hge, flatten_map_range_length g n hg jj]
      simp [Nat.add_sub_cancel_left]

theorem buildParinfo_length (npars npeaks : Nat) (pn : List String)
    (tValues tSteps tFixed tError tTied : List PV)
    (tLimits tLimited : List (PV × PV)) :
    (buildParinfo npars npeaks pn tValues tSteps tFixed tError tTied
      tLimits tLimited).length = npeaks * npars :=
  flatten_map_range_length _ npars (fun _ => by simp) npeaks

theorem buildParinfo_get (npars npeaks : Nat) (pn : List String)
    (tValues tSteps tFixed tError tTied : List PV)
    (tLimits tLimited : List (PV × PV)) (jj ii : Nat)
    (hjj : jj < npeaks) (hii : ii < npars) :
    (buildParinfo npars npeaks pn tValues tSteps tFixed tError tTied
        tLimits tLimited)[jj * npars + ii]?
      = some (mkEntry npars pn tValues tSteps tFixed tError tTied
          tLimits tLimited ii jj) := by
  unfold buildParinfo
  rw [flatten_map_range_get _ npars (fun _ => by simp) npeaks jj ii hjj hii]
  rw [List.getElem?_map, List.getElem?_range hii]
  rfl

theorem negUpd_true_eq : negUpd (some true) = negUpdTrue := rfl

theorem negUpd_false_eq : negUpd (some false) = negUpdFalse := rfl

theorem applyNegamp_length (oneg : Option Bool) (tbl : List ParInfoEntry) :
    (applyNegamp oneg tbl).length = tbl.length := by
  cases oneg with
  | none => rfl
  | some b => cases b <;> simp [applyNegamp]

theorem applyNegamp_get (oneg : Option Bool) (tbl : List ParInfoEntry) (i : Nat) :
    (applyNegamp oneg tbl)[i]? = (tbl[i]?).map (negUpd oneg) := by
  cases oneg with
  | none => cases h : tbl[i]? <;> simp [applyNegamp, negUpd, h]
  | some b =>
    cases b <;>
      simp [applyNegamp, List.getElem?_map, negUpd_true_eq, negUpd_false_eq]

theorem negUpd_fields (oneg : Option Bool) (p : ParInfoEntry) :
    (negUpd oneg p).n = p.n ∧ (negUpd oneg p).value = p.value ∧
    (negUpd oneg p).step = p.step ∧ (negUpd oneg p).fixed = p.fixed ∧
    (negUpd oneg p).parname = p.parname ∧ (negUpd oneg p).error = p.error ∧
    (negUpd oneg p).tied = p.tied := by
  cases oneg with
  | none => simp [negUpd]
  | some b =>
    cases b <;> by_cases h : strHasAMP p.parname <;>
      simp [negUpd, negUpdTrue, negUpdFalse, h]

theorem makeParinfo_ok_elim (st : ModelState) (a : MPArgs)
    (out : ModelState × List ParInfoEntry × List (String × PV))
    (h : makeParinfo st a = .ok out) :
    ∃ v1 pn, resolveValues a.params (optOr a.values a.parvalues) = .ok v1 ∧
      resolveParnames st.parnames (optOr a.names a.parnames) = .ok pn ∧
      out = makeParinfoCore st a v1 pn := by
  unfold makeParinfo at h
  cases hv : resolveValues a.params (optOr a.values a.parvalues) with
  | error e => rw [hv] at h; simp at h
  | ok v1 =>
    rw [hv] at h
    cases hp : resolveParnames st.parnames (optOr a.names a.parnames) with
    | error e => rw [hp] at h; simp at h
    | ok pn =>
      rw [hp] at h
      simp only [Except.ok.injEq] at h
      exact ⟨v1, pn, rfl, rfl, h.symm⟩

/-! ### Claim theorems -/

/-- C1: for every valid keyword combination with `npars >= 1` and
`npeaks >= 1`, `_make_parinfo` returns a descriptor table with exactly
`npars * npeaks` entries in peak-major order, where the entry at flat
position `jj * npars + ii` has index field `n = jj * npars + ii` and
display name equal to the uppercased base name of parameter `ii`
concatenated with the peak index `jj`. -/
theorem make_parinfo_table_shape (st : ModelState) (a : MPArgs)
    (st1 : ModelState) (tbl : List ParInfoEntry) (kw : List (String × PV))
    (pns : List String)
    (hnp : 1 ≤ st.npars) (hpk : 1 ≤ a.npeaks)
    (hr : resolveParnames st.parnames (optOr a.names a.parnames) = .ok pns)
    (hpns : st.npars ≤ pns.length)
    (h : makeParinfo st a = .ok (st1, tbl, kw)) :
    tbl.length = st.npars * a.npeaks ∧
    ∀ jj ii, jj < a.npeaks → ii < st.npars →
      ∃ p, tbl[jj * st.npars + ii]? = some p ∧
        p.n = jj * st.npars + ii ∧
        p.parname = strUpper (pns.getD ii "") ++ toString jj := by
  obtain ⟨v1, pn, hv, hp, hout⟩ := makeParinfo_ok_elim st a _ h
  have hpn : pn = pns := by
    have h2 := hp.symm.trans hr
    exact ((Except.ok.injEq _ _).mp h2)
  subst hpn
  have htbl : tbl = coreTable st a v1 pn := by
    have h3 := congrArg (fun t => t.2.1) hout
    simpa [makeParinfoCore] using h3
  subst htbl
  unfold coreTable
  constructor
  · rw [applyNegamp_length, buildParinfo_length, Nat.mul_comm]
  · intro jj ii hjj hii
    rw [applyNegamp_get,
      buildParinfo_get _ _ _ _ _ _ _ _ _ _ jj ii hjj hii,
      Option.map_some']
    refine ⟨_, rfl, ?_, ?_⟩
    · rw [(negUpd_fields a.negamp _).1]
      show (mkEntry _ _ _ _ _ _ _ _ _ ii jj).n = jj * st.npars + ii
      simp [mkEntry]; ring
    · rw [(negUpd_fields a.negamp _).2.2.2.2.1]
      show (mkEntry _ _ _ _ _ _ _ _ _ ii jj).parname
        = strUpper (pn.getD ii "") ++ toString jj
      simp [mkEntry]

/-- A fresh instance state with two parameters per peak, used by
concrete witnesses. -/
def stW : ModelState :=
  { npars := 1, parnames := none, shortvarnames := none, fitunits := none,
    npeaks := 1, parinfo := [] }

/-- Concrete builder call: one parameter named `"amp"`, one peak. -/
def aW : MPArgs := { parnames := some ["amp"] }

/-- The descriptor entry the builder produces for `stW`/`aW`. -/
def entryW : ParInfoEntry :=
  { n := 0, value := PV.bool false, step := PV.bool false,
    limits := (PV.num 0, PV.num 0),
    limited := (PV.bool false, PV.bool false),
    fixed := PV.bool false, parname := "AMP0", error := PV.bool false,
    tied := PV.str "" }

/-- The instance state after the builder call `stW`/`aW`. -/
def stW1 : ModelState :=
  { npars := 1, parnames := some ["amp"],
    shortvarnames := some ["A", "\\Delta x", "\\sigma"], fitunits := none,
    npeaks := 1, parinfo := [entryW] }

theorem make_parinfo_table_shape_witness :
    ([entryW].length = stW.npars * aW.npeaks) ∧
    ∀ jj ii, jj < aW.npeaks → ii < stW.npars →
      ∃ p, [entryW][jj * stW.npars + ii]? = some p ∧
        p.n = jj * stW.npars + ii ∧
        p.parname = strUpper ((["amp"] : List String).getD ii "") ++ toString jj :=
  make_parinfo_table_shape stW aW stW1 [entryW] [] ["amp"]
    (by decide) (by decide) (by decide) (by decide) (by decide)

theorem resolveParnames_stable (stored : Option (List String))
    (arg : Option (List String)) (pn : List String)
    (h : resolveParnames stored arg = .ok pn) :
    resolveParnames (some pn) arg = .ok pn := by
  cases arg with
  | some x =>
    simp [resolveParnames] at h ⊢
    exact h
  | none => rfl

theorem makeParinfoCore_restate (st : ModelState) (a : MPArgs)
    (v1 : Option (List PV)) (pn : List String) :
    makeParinfoCore ((makeParinfoCore st a v1 pn).1) a v1 pn
      = makeParinfoCore st a v1 pn := by
  simp [makeParinfoCore, coreTable, optOr_idem]

/-- C9: the descriptor builder is idempotent — a second call with the
same keyword-argument input, from the state the first call produced,
returns the same state, the same table (same order and values in every
field), and the same residual keyword mapping. -/
theorem make_parinfo_idempotent (st st1 : ModelState) (a : MPArgs)
    (tbl : List ParInfoEntry) (kw : List (String × PV))
    (h : makeParinfo st a = .ok (st1, tbl, kw)) :
    makeParinfo st1 a = .ok (st1, tbl, kw) := by
  obtain ⟨v1, pn, hv, hp, hout⟩ := makeParinfo_ok_elim st a _ h
  have hst1 : st1 = (makeParinfoCore st a v1 pn).1 := congrArg Prod.fst hout
  have hpn1 : st1.parnames = some pn := by
    rw [hst1]; rfl
  have hres2 : resolveParnames st1.parnames (optOr a.names a.parnames)
      = .ok pn := by
    rw [hpn1]; exact resolveParnames_stable st.parnames _ pn hp
  unfold makeParinfo
  rw [hv]
  show (match resolveParnames st1.parnames (optOr a.names a.parnames) with
    | .error e => .error e
    | .ok pn2 => .ok (makeParinfoCore st1 a v1 pn2))
      = Except.ok (st1, tbl, kw)
  rw [hres2]
  show Except.ok (makeParinfoCore st1 a v1 pn) = Except.ok (st1, tbl, kw)
  rw [hout, hst1, makeParinfoCore_restate]

theorem make_parinfo_idempotent_witness :
    makeParinfo stW1 aW = .ok (stW1, [entryW], []) :=
  make_parinfo_idempotent stW stW1 aW [entryW] [] (by decide)

/-- Arguments with both `params` and (via the alias pass) `parvalues`
supplied, used by the C5 witness. -/
def aConflict : MPArgs :=
  { parnames := some ["amp"], params := some [PV.num 5],
    values := some [PV.num 6] }

/-- Arguments with only `params` supplied, used by the C5 witness. -/
def aParamsOnly : MPArgs :=
  { parnames := some ["amp"], params := some [PV.num 5] }

/-- The table built from `stW`/`aParamsOnly`: the entry takes its value
from `params`. -/
def entryP : ParInfoEntry :=
  { n := 0, value := PV.num 5, step := PV.bool false,
    limits := (PV.num 0, PV.num 0),
    limited := (PV.bool false, PV.bool false),
    fixed := PV.bool false, parname := "AMP0", error := PV.bool false,
    tied := PV.str "" }

/-- C5: supplying both `params` and `parvalues` (the latter possibly via
its `values` alias) with non-empty content makes the builder fail with
the `ConflictingArguments` condition; supplying only `params` makes it
the initial-value sequence, i.e. every descriptor entry takes its
`value` field from `params` at its flat index. -/
theorem make_parinfo_params_conflict (st : ModelState) (a : MPArgs)
    (hnp : 1 ≤ st.npars) :
    (∀ ps vs, a.params = some ps → optOr a.values a.parvalues = some vs →
      ps ≠ [] → vs ≠ [] →
      makeParinfo st a = .error Err.conflictingArguments) ∧
    (∀ ps st1 tbl kw, a.params = some ps →
      optOr a.values a.parvalues = none →
      makeParinfo st a = .ok (st1, tbl, kw) →
      ∀ i p, tbl[i]? = some p → i < ps.length →
        p.value = ps.getD i (PV.bool false)) := by
  constructor
  · intro ps vs hps hvs _ _
    unfold makeParinfo
    rw [hps, hvs]
    rfl
  · intro ps st1 tbl kw hps hvs h i p hi hilen
    obtain ⟨v1, pn, hv, hp, hout⟩ := makeParinfo_ok_elim st a _ h
    rw [hps, hvs] at hv
    have hv1 : v1 = some ps := by
      simp [resolveValues] at hv
      exact hv.symm
    subst hv1
    have htbl : tbl = coreTable st a (some ps) pn := by
      have h3 := congrArg (fun t => t.2.1) hout
      simpa [makeParinfoCore] using h3
    subst htbl
    have hlen : i < a.npeaks * st.npars := by
      by_contra hcon
      rw [List.getElem?_eq_none (by
        rw [coreTable, applyNegamp_length, buildParinfo_length]
        omega)] at hi
      exact absurd hi (by simp)
    have hii : i % st.npars < st.npars := Nat.mod_lt i (by omega)
    have hjj : i / st.npars < a.npeaks := by
      rw [Nat.div_lt_iff_lt_mul (by omega)]
      exact hlen
    have hidx : (i / st.npars) * st.npars + i % st.npars = i := by
      rw [Nat.mul_comm]
      exact Nat.div_add_mod i st.npars
    rw [coreTable, ← hidx, applyNegamp_get,
      buildParinfo_get _ _ _ _ _ _ _ _ _ _ _ _ hjj hii,
      Option.map_some'] at hi
    have hpv : p = negUpd a.negamp
        (mkEntry st.npars pn
          ((some ps).getD (zerosBool (st.npars * a.npeaks)))
          ((optOr a.steps a.parsteps).getD (zerosBool (st.npars * a.npeaks)))
          ((optOr a.fixed a.parfixed).getD (zerosBool (st.npars * a.npeaks)))
          ((optOr a.error a.parerror).getD (zerosBool (st.npars * a.npeaks)))
          ((optOr a.tied a.partied).getD (zerosBool (st.npars * a.npeaks)))
          ((synthLimits pn.length (optOr a.limits a.parlimits)
              a.limitedmin a.limitedmax a.minpars a.maxpars).getD
            (List.replicate (st.npars * a.npeaks) (PV.num 0, PV.num 0)))
          ((optOr a.limited a.parlimited).getD
            (List.replicate (st.npars * a.npeaks) (PV.bool false, PV.bool false)))
          (i % st.npars) (i / st.npars)) := by
      exact (Option.some.inj hi).symm
    rw [hpv, (negUpd_fields _ _).2.1]
    show ((some ps).getD (zerosBool (st.npars * a.npeaks))).getD
      (i % st.npars + st.npars * (i / st.npars)) (PV.bool false)
        = ps.getD i (PV.bool false)
    have : i % st.npars + st.npars * (i / st.npars) = i := by
      rw [Nat.add_comm]
      exact Nat.div_add_mod i st.npars
    rw [this]
    rfl

/-- The instance state after the builder call `stW`/`aParamsOnly`. -/
def stW1P : ModelState :=
  { npars := 1, parnames := some ["amp"],
    shortvarnames := some ["A", "\\Delta x", "\\sigma"], fitunits := none,
    npeaks := 1, parinfo := [entryP] }

theorem make_parinfo_params_conflict_witness :
    makeParinfo stW aConflict = .error Err.conflictingArguments ∧
    entryP.value = ([PV.num 5] : List PV).getD 0 (PV.bool false) :=
  ⟨(make_parinfo_params_conflict stW aConflict (by decide)).1
      [PV.num 5] [PV.num 6] rfl rfl (by decide) (by decide),
   (make_parinfo_params_conflict stW aParamsOnly (by decide)).2
      [PV.num 5] stW1P [entryP] [] rfl rfl (by decide) 0 entryP
      (by decide) (by decide)⟩

theorem coreTable_negamp (st : ModelState) (a : MPArgs)
    (v1 : Option (List PV)) (pn : List String) (b : Bool) :
    coreTable st { a with negamp := some b } v1 pn
      = applyNegamp (some b) (coreTable st { a with negamp := none } v1 pn) := rfl

/-- C4: relative to a builder call with `negamp` unset (which applies no
sign constraint), calling with `negamp := some true` yields a table of
the same length in which every entry whose display name contains `AMP`
has its upper bound forced to 0 and its upper-bound flag enabled, with
lower bound, lower-bound flag, and every other field unchanged, and
every non-amplitude entry completely unchanged; `negamp := some false`
acts symmetrically on the lower bound. -/
theorem negamp_sign_constraint (st : ModelState) (a : MPArgs)
    (st1 stT stF : ModelState) (tbl tblT tblF : List ParInfoEntry)
    (kw kwT kwF : List (String × PV))
    (hneg : a.negamp = none)
    (h : makeParinfo st a = .ok (st1, tbl, kw))
    (hT : makeParinfo st { a with negamp := some true } = .ok (stT, tblT, kwT))
    (hF : makeParinfo st { a with negamp := some false } = .ok (stF, tblF, kwF)) :
    tblT.length = tbl.length ∧ tblF.length = tbl.length ∧
    (∀ (i : Nat) (p : ParInfoEntry), tbl[i]? = some p →
      ∃ p', tblT[i]? = some p' ∧
        (strHasAMP p.parname = true →
          p'.limited = (p.limited.1, PV.bool true) ∧
          p'.limits = (p.limits.1, PV.num 0) ∧
          p'.n = p.n ∧ p'.value = p.value ∧ p'.step = p.step ∧
          p'.fixed = p.fixed ∧ p'.parname = p.parname ∧
          p'.error = p.error ∧ p'.tied = p.tied) ∧
        (strHasAMP p.parname = false → p' = p)) ∧
    (∀ (i : Nat) (p : ParInfoEntry), tbl[i]? = some p →
      ∃ p', tblF[i]? = some p' ∧
        (strHasAMP p.parname = true →
          p'.limited = (PV.bool true, p.limited.2) ∧
          p'.limits = (PV.num 0, p.limits.2) ∧
          p'.n = p.n ∧ p'.value = p.value ∧ p'.step = p.step ∧
          p'.fixed = p.fixed ∧ p'.parname = p.parname ∧
          p'.error = p.error ∧ p'.tied = p.tied) ∧
        (strHasAMP p.parname = false → p' = p)) := by
  obtain ⟨v1, pn, hv, hp, hout⟩ := makeParinfo_ok_elim st a _ h
  obtain ⟨v1T, pnT, hvT, hpT, houtT⟩ := makeParinfo_ok_elim st _ _ hT
  obtain ⟨v1F, pnF, hvF, hpF, houtF⟩ := makeParinfo_ok_elim st _ _ hF
  have hv1T : v1 = v1T := (Except.ok.injEq _ _).mp (hv.symm.trans hvT)
  have hpnT : pn = pnT := (Except.ok.injEq _ _).mp (hp.symm.trans hpT)
  have hv1F : v1 = v1F := (Except.ok.injEq _ _).mp (hv.symm.trans hvF)
  have hpnF : pn = pnF := (Except.ok.injEq _ _).mp (hp.symm.trans hpF)
  subst hv1T hpnT hv1F hpnF
  have ha : { a with negamp := none } = a := by rw [← hneg]
  have htbl : tbl = coreTable st a v1 pn := by
    have h3 := congrArg (fun t => t.2.1) hout
    simpa [makeParinfoCore] using h3
  have htblT : tblT = applyNegamp (some true) tbl := by
    have h3 := congrArg (fun t => t.2.1) houtT
    simp only [makeParinfoCore] at h3
    rw [h3, coreTable_negamp, ha, ← htbl]
  have htblF : tblF = applyNegamp (some false) tbl := by
    have h3 := congrArg (fun t => t.2.1) houtF
    simp only [makeParinfoCore] at h3
    rw [h3, coreTable_negamp, ha, ← htbl]
  subst htblT htblF
  refine ⟨applyNegamp_length _ _, applyNegamp_length _ _, ?_, ?_⟩
  · intro i p hi
    rw [applyNegamp_get, hi, Option.map_some']
    refine ⟨_, rfl, ?_, ?_⟩
    · intro hamp
      simp [negUpd, negUpdTrue, hamp]
    · intro hamp
      simp [negUpd, negUpdTrue, hamp]
  · intro i p hi
    rw [applyNegamp_get, hi, Option.map_some']
    refine ⟨_, rfl, ?_, ?_⟩
    · intro hamp
      simp [negUpd, negUpdFalse, hamp]
    · intro hamp
      simp [negUpd, negUpdFalse, hamp]

/-- The table entry after `negamp=True` processing of `entryW`. -/
def entryWT : ParInfoEntry :=
  { n := 0, value := PV.bool false, step := PV.bool false,
    limits := (PV.num 0, PV.num 0),
    limited := (PV.bool false, PV.bool true),
    fixed := PV.bool false, parname := "AMP0", error := PV.bool false,
    tied := PV.str "" }

/-- The table entry after `negamp=False` processing of `entryW`. -/
def entryWF : ParInfoEntry :=
  { n := 0, value := PV.bool false, step := PV.bool false,
    limits := (PV.num 0, PV.num 0),
    limited := (PV.bool true, PV.bool false),
    fixed := PV.bool false, parname := "AMP0", error := PV.bool false,
    tied := PV.str "" }

/-- The instance state after the builder call `stW`/`aW` with
`negamp := some true`. -/
def stWT : ModelState :=
  { npars := 1, parnames := some ["amp"],
    shortvarnames := some ["A", "\\Delta x", "\\sigma"], fitunits := none,
    npeaks := 1, parinfo := [entryWT] }

/-- The instance state after the builder call `stW`/`aW` with
`negamp := some false`. -/
def stWF : ModelState :=
  { npars := 1, parnames := some ["amp"],
    shortvarnames := some ["A", "\\Delta x", "\\sigma"], fitunits := none,
    npeaks := 1, parinfo := [entryWF] }

theorem negamp_sign_constraint_witness :
    ∃ pT pF, [entryWT][0]? = some pT ∧
      pT.limited = (PV.bool false, PV.bool true) ∧
      pT.limits = (PV.num 0, PV.num 0) ∧
      [entryWF][0]? = some pF ∧
      pF.limited = (PV.bool true, PV.bool false) ∧
      pF.limits = (PV.num 0, PV.num 0) := by
  obtain ⟨-, -, hTrue, hFalse⟩ :=
    negamp_sign_constraint stW aW stW1 stWT stWF
      [entryW] [entryWT] [entryWF] [] [] []
      rfl (by decide) (by decide) (by decide)
  obtain ⟨pT, hT1, hTamp, -⟩ := hTrue 0 entryW (by decide)
  obtain ⟨pF, hF1, hFamp, -⟩ := hFalse 0 entryW (by decide)
  obtain ⟨hTl, hTlim, -⟩ := hTamp (by decide)
  obtain ⟨hFl, hFlim, -⟩ := hFamp (by decide)
  refine ⟨pT, pF, hT1, hTl, ?_, hF1, hFl, ?_⟩
  · rw [hTlim]; rfl
  · rw [hFlim]; rfl

theorem snd_of_zip_falseFill (l : List PV) (n i : Nat) (q : PV × PV)
    (h : (List.zip l (falseFill n))[i]? = some q) :
    q.1 = l.getD i (PV.bool false) ∧ q.2 = PV.bool false := by
  have hq := List.of_mem_zip (List.mem_iff_getElem?.mpr ⟨i, h⟩)
  constructor
  · have h1 := (List.getElem?_zip_eq_some.mp h).1
    rw [List.getD_eq_getElem?_getD, h1]
    rfl
  · exact List.eq_of_mem_replicate hq.2

theorem fst_of_zip_falseFill (l : List PV) (n i : Nat) (q : PV × PV)
    (h : (List.zip (falseFill n) l)[i]? = some q) :
    q.1 = PV.bool false ∧ q.2 = l.getD i (PV.bool false) := by
  have hq := List.of_mem_zip (List.mem_iff_getElem?.mpr ⟨i, h⟩)
  constructor
  · exact List.eq_of_mem_replicate hq.1
  · have h2 := (List.getElem?_zip_eq_some.mp h).2
    rw [List.getD_eq_getElem?_getD, h2]
    rfl

/-- C6: the limit-synthesis arguments are evaluated in the fixed order
limitedmin/limitedmax first, then minpars/maxpars, last write winning:
when `minpars` and/or `maxpars` are given, the result does not depend on
`limitedmin`/`limitedmax` or any earlier pair-sequence; when neither is
given, the `limitedmin`/`limitedmax` synthesis stands; and whenever only
one side of either convenience pair is given, the other side of every
synthesized pair is the disabled value `False`. -/
theorem limits_synthesis_order (pnLen : Nat) (pl0 : Option (List (PV × PV)))
    (lmin lmax mn mx : Option (List PV)) :
    ((mn ≠ none ∨ mx ≠ none) → ∀ lmin2 lmax2 pl2,
      synthLimits pnLen pl2 lmin2 lmax2 mn mx
        = synthLimits pnLen pl0 lmin lmax mn mx) ∧
    (∀ mnl mxl, mn = some mnl → mx = some mxl →
      synthLimits pnLen pl0 lmin lmax mn mx = some (List.zip mnl mxl)) ∧
    (∀ mnl, mn = some mnl → mx = none →
      ∃ r, synthLimits pnLen pl0 lmin lmax mn mx = some r ∧
        ∀ i q, r[i]? = some q →
          q.1 = mnl.getD i (PV.bool false) ∧ q.2 = PV.bool false) ∧
    (∀ mxl, mn = none → mx = some mxl →
      ∃ r, synthLimits pnLen pl0 lmin lmax mn mx = some r ∧
        ∀ i q, r[i]? = some q →
          q.1 = PV.bool false ∧ q.2 = mxl.getD i (PV.bool false)) ∧
    (mn = none → mx = none →
      (∀ lminl lmaxl, lmin = some lminl → lmax = some lmaxl →
        synthLimits pnLen pl0 lmin lmax mn mx = some (List.zip lminl lmaxl)) ∧
      (∀ lminl, lmin = some lminl → lmax = none →
        ∃ r, synthLimits pnLen pl0 lmin lmax mn mx = some r ∧
          ∀ i q, r[i]? = some q →
            q.1 = lminl.getD i (PV.bool false) ∧ q.2 = PV.bool false) ∧
      (∀ lmaxl, lmin = none → lmax = some lmaxl →
        ∃ r, synthLimits pnLen pl0 lmin lmax mn mx = some r ∧
          ∀ i q, r[i]? = some q →
            q.1 = PV.bool false ∧ q.2 = lmaxl.getD i (PV.bool false)) ∧
      (lmin = none → lmax = none →
        synthLimits pnLen pl0 lmin lmax mn mx = pl0)) := by
  refine ⟨?_, ?_, ?_, ?_, ?_⟩
  · intro hgiven lmin2 lmax2 pl2
    match hmn : mn, hmx : mx with
    | some mnl, some mxl => rfl
    | some mnl, none => rfl
    | none, some mxl => rfl
    | none, none =>
      subst hmn hmx
      rcases hgiven with hc | hc <;> exact absurd rfl hc
  · intro mnl mxl hmn hmx
    subst hmn hmx
    rfl
  · intro mnl hmn hmx
    subst hmn hmx
    exact ⟨_, rfl, fun i q h => snd_of_zip_falseFill mnl pnLen i q h⟩
  · intro mxl hmn hmx
    subst hmn hmx
    exact ⟨_, rfl, fun i q h => fst_of_zip_falseFill mxl pnLen i q h⟩
  · intro hmn hmx
    subst hmn hmx
    refine ⟨?_, ?_, ?_, ?_⟩
    · intro lminl lmaxl h1 h2
      subst h1 h2
      rfl
    · intro lminl h1 h2
      subst h1 h2
      exact ⟨_, rfl, fun i q h => snd_of_zip_falseFill lminl pnLen i q h⟩
    · intro lmaxl h1 h2
      subst h1 h2
      exact ⟨_, rfl, fun i q h => fst_of_zip_falseFill lmaxl pnLen i q h⟩
    · intro h1 h2
      subst h1 h2
      rfl

theorem limits_synthesis_order_witness :
    (synthLimits 1 (some [(PV.num 7, PV.num 8)]) (some [PV.bool true])
        (some [PV.bool true]) (some [PV.num 1]) (some [PV.num 2])
      = synthLimits 1 none none none (some [PV.num 1]) (some [PV.num 2])) ∧
    (synthLimits 1 none none none (some [PV.num 1]) (some [PV.num 2])
      = some (List.zip [PV.num 1] [PV.num 2])) ∧
    ∃ r, synthLimits 2 none (some [PV.bool true, PV.bool false]) none
        none none = some r ∧
      ∀ i q, r[i]? = some q →
        q.1 = ([PV.bool true, PV.bool false] : List PV).getD i (PV.bool false) ∧
        q.2 = PV.bool false := by
  refine ⟨?_, ?_, ?_⟩
  · exact ((limits_synthesis_order 1 none none none
      (some [PV.num 1]) (some [PV.num 2])).1
      (Or.inl (by simp)) (some [PV.bool true]) (some [PV.bool true])
      (some [(PV.num 7, PV.num 8)])).symm
  · exact (limits_synthesis_order 1 none none none
      (some [PV.num 1]) (some [PV.num 2])).2.1 [PV.num 1] [PV.num 2] rfl rfl
  · exact ((limits_synthesis_order 2 none
      (some [PV.bool true, PV.bool false]) none none none).2.2.2.2
      rfl rfl).2.1 [PV.bool true, PV.bool false] rfl rfl

theorem addVec_cons (a b : Rat) (as bs : List Rat) :
    addVec (a :: as) (b :: bs) = (a + b) :: addVec as bs := rfl

theorem addVec_length (a b : List Rat) :
    (addVec a b).length = min a.length b.length := by
  simp [addVec]

theorem addVec_getD (a b : List Rat) (i : Nat)
    (ha : i < a.length) (hb : i < b.length) :
    (addVec a b).getD i 0 = a.getD i 0 + b.getD i 0 := by
  induction a generalizing b i with
  | nil => simp at ha
  | cons x xs ih =>
    cases b with
    | nil => simp at hb
    | cons y ys =>
      cases i with
      | zero => rw [addVec_cons]; rfl
      | succ i =>
        rw [addVec_cons, List.getD_cons_succ, List.getD_cons_succ,
          List.getD_cons_succ]
        exact ih ys i (by simpa using ha) (by simpa using hb)

theorem zero_addVec (l : List Rat) :
    addVec (List.replicate l.length 0) l = l := by
  induction l with
  | nil => rfl
  | cons x xs ih =>
    rw [List.length_cons, List.replicate_succ, addVec_cons, zero_add, ih]

theorem getD_replicate_zero (n i : Nat) :
    (List.replicate n (0 : Rat)).getD i 0 = 0 := by
  rw [List.getD_eq_getElem?_getD]
  cases h : (List.replicate n (0 : Rat))[i]? with
  | none => rfl
  | some v =>
    have hv := List.eq_of_mem_replicate (List.mem_iff_getElem?.mpr ⟨i, h⟩)
    rw [hv]
    rfl

theorem foldl_addVec_length (vs : Nat → List Rat) (L : Nat)
    (hvs : ∀ j, (vs j).length = L) :
    ∀ k (acc : List Rat), acc.length = L →
      ((List.range k).foldl (fun v jj => addVec v (vs jj)) acc).length = L := by
  intro k
  induction k with
  | zero => intro acc h; simpa using h
  | succ k ih =>
    intro acc h
    rw [List.range_succ, List.foldl_append, List.foldl_cons, List.foldl_nil,
      addVec_length, ih acc h, hvs k]
    simp

theorem foldl_addVec_getD (vs : Nat → List Rat) (L : Nat)
    (hvs : ∀ j, (vs j).length = L) :
    ∀ k (acc : List Rat), acc.length = L → ∀ i, i < L →
      ((List.range k).foldl (fun v jj => addVec v (vs jj)) acc).getD i 0
        = acc.getD i 0 + ∑ jj ∈ Finset.range k, (vs jj).getD i 0 := by
  intro k
  induction k with
  | zero => intro acc h i hi; simp
  | succ k ih =>
    intro acc h i hi
    rw [List.range_succ, List.foldl_append, List.foldl_cons, List.foldl_nil,
      addVec_getD _ _ i (by rw [foldl_addVec_length vs L hvs k acc h]; exact hi)
        (by rw [hvs k]; exact hi),
      ih acc h i hi, Finset.sum_range_succ]
    ring

/-- C2: for a flat parameter vector of length `k * npars`, the composed
multi-peak function maps an axis to the elementwise sum of the
single-peak model over the `k` contiguous `npars`-slices; the peak count
is inferred from the vector length (the result is independent of the
stored peak count); and for `k = 1` the composed function returns
exactly the raw model function's output. -/
theorem n_modelfunc_composition (m : SpecModel) (pars x : List Rat) (k : Nat)
    (hk : 1 ≤ k) (hnp : 1 ≤ m.npars)
    (hlen : pars.length = k * m.npars)
    (hmodel : ∀ ps, (m.modelfunc x ps).length = x.length) :
    (n_modelfunc m pars x).length = x.length ∧
    (∀ i, i < x.length →
      (n_modelfunc m pars x).getD i 0 =
        ∑ jj ∈ Finset.range k,
          (m.modelfunc x ((pars.drop (jj * m.npars)).take m.npars)).getD i 0) ∧
    (∀ m2 : SpecModel, m2.npars = m.npars → m2.modelfunc = m.modelfunc →
      n_modelfunc m2 pars x = n_modelfunc m pars x) ∧
    (k = 1 → n_modelfunc m pars x = m.modelfunc x pars) := by
  have hdiv : pars.length / m.npars = k := by
    rw [hlen, Nat.mul_div_cancel _ (by omega)]
  refine ⟨?_, ?_, ?_, ?_⟩
  · unfold n_modelfunc
    rw [hdiv]
    exact foldl_addVec_length _ x.length (fun j => hmodel _) k _ (by simp)
  · intro i hi
    unfold n_modelfunc
    rw [hdiv,
      foldl_addVec_getD _ x.length (fun j => hmodel _) k _ (by simp) i hi,
      getD_replicate_zero, zero_add]
  · intro m2 h1 h2
    unfold n_modelfunc
    rw [h1, h2]
  · intro hk1
    subst hk1
    unfold n_modelfunc
    rw [hdiv]
    rw [show List.range 1 = [0] from rfl, List.foldl_cons, List.foldl_nil,
      Nat.zero_mul, List.drop_zero]
    have htake : pars.take m.npars = pars :=
      List.take_of_length_le (by rw [hlen]; omega)
    rw [htake, ← hmodel pars]
    exact zero_addVec _

/-- A concrete one-parameter linear model used by the composer witness:
each peak scales the axis by its single parameter. -/
def mW2 : SpecModel :=
  { npars := 1, npeaks := 1,
    modelfunc := fun x ps => x.map (fun t => t * ps.getD 0 0),
    shortvarnames := ["A"], model := none, mpp := none, mpperr := none,
    xax := none }

theorem n_modelfunc_composition_witness :
    (n_modelfunc mW2 [2, 3] [1, 2]).length = 2 ∧
    (n_modelfunc mW2 [2, 3] [1, 2]).getD 0 0 =
      ∑ jj ∈ Finset.range 2,
        ((mW2.modelfunc [1, 2] (([2, 3].drop (jj * 1)).take 1)).getD 0 0) ∧
    n_modelfunc mW2 [5] [1, 2] = mW2.modelfunc [1, 2] [5] := by
  obtain ⟨h1, h2, -, -⟩ :=
    n_modelfunc_composition mW2 [2, 3] [1, 2] 2 (by decide) (by decide)
      (by decide) (fun ps => by simp [mW2])
  obtain ⟨-, -, -, h3⟩ :=
    n_modelfunc_composition mW2 [5] [1, 2] 1 (by decide) (by decide)
      (by decide) (fun ps => by simp [mW2])
  exact ⟨h1, h2 0 (by decide), h3 rfl⟩

theorem getElem?_zipWith_custom {α β γ : Type} (f : α → β → γ)
    (a : List α) (b : List β) (i : Nat) (x : α) (y : β)
    (ha : a[i]? = some x) (hb : b[i]? = some y) :
    (List.zipWith f a b)[i]? = some (f x y) := by
  induction a generalizing b i with
  | nil => simp at ha
  | cons p ps ih =>
    cases b with
    | nil => simp at hb
    | cons q qs =>
      cases i with
      | zero =>
        simp only [List.getElem?_cons_zero, Option.some.injEq] at ha hb
        rw [List.zipWith_cons_cons, List.getElem?_cons_zero, ha, hb]
      | succ i =>
        rw [List.zipWith_cons_cons, List.getElem?_cons_succ]
        exact ih qs i (by simpa using ha) (by simpa using hb)

/-- C3: in the fit driver, before the residual function sees the data,
every sample whose data value is NaN or infinite has its error entry set
to infinity and its data value set to 0, every other sample is left
untouched; and when no error array is supplied while the data contains
NaN/Inf, the step fails with the `InvalidInput` condition. -/
theorem fitter_sanitization (data e data1 e1 : List FP)
    (hlen : data.length = e.length)
    (h : sanitizeData data (some e) = .ok (data1, some e1)) :
    (∀ (i : Nat) (d ev : FP), data[i]? = some d → e[i]? = some ev →
      (FP.isbad d = true →
        data1[i]? = some (FP.fin 0) ∧ e1[i]? = some FP.inf) ∧
      (FP.isbad d = false →
        data1[i]? = some d ∧ e1[i]? = some ev)) ∧
    (data.any FP.isbad = true →
      sanitizeData data none = .error Err.invalidInput) := by
  constructor
  · intro i d ev hd hev
    unfold sanitizeData at h
    by_cases hbad : data.any FP.isbad
    · rw [if_pos hbad] at h
      simp only [Except.ok.injEq, Prod.mk.injEq, Option.some.injEq] at h
      obtain ⟨h1, h2⟩ := h
      subst h1
      subst h2
      constructor
      · intro hb
        constructor
        · rw [List.getElem?_map, hd]
          simp [hb]
        · rw [getElem?_zipWith_custom _ data e i d ev hd hev]
          simp [hb]
      · intro hb
        constructor
        · rw [List.getElem?_map, hd]
          simp [hb]
        · rw [getElem?_zipWith_custom _ data e i d ev hd hev]
          simp [hb]
    · rw [if_neg hbad] at h
      simp only [Except.ok.injEq, Prod.mk.injEq, Option.some.injEq] at h
      obtain ⟨h1, h2⟩ := h
      subst h1
      subst h2
      have hnotbad : FP.isbad d = false := by
        by_contra hc
        have hdt : FP.isbad d = true := by
          cases hfb : FP.isbad d with
          | true => rfl
          | false => exact absurd hfb hc
        exact hbad (List.any_eq_true.mpr
          ⟨d, List.mem_iff_getElem?.mpr ⟨i, hd⟩, hdt⟩)
      constructor
      · intro hb
        rw [hnotbad] at hb
        exact absurd hb (by simp)
      · intro _
        exact ⟨hd, hev⟩
  · intro hbad
    unfold sanitizeData
    rw [if_pos hbad]

theorem fitter_sanitization_witness :
    [FP.fin 0, FP.fin 1, FP.fin 0, FP.fin 2][0]? = some (FP.fin 0) ∧
    [FP.inf, FP.fin 1, FP.inf, FP.fin 1][0]? = some FP.inf ∧
    [FP.fin 0, FP.fin 1, FP.fin 0, FP.fin 2][1]? = some (FP.fin 1) ∧
    [FP.inf, FP.fin 1, FP.inf, FP.fin 1][1]? = some (FP.fin 1) ∧
    sanitizeData [FP.nan, FP.fin 1, FP.inf, FP.fin 2] none
      = .error Err.invalidInput := by
  obtain ⟨hpos, hnone⟩ :=
    fitter_sanitization [FP.nan, FP.fin 1, FP.inf, FP.fin 2]
      [FP.fin 1, FP.fin 1, FP.fin 1, FP.fin 1]
      [FP.fin 0, FP.fin 1, FP.fin 0, FP.fin 2]
      [FP.inf, FP.fin 1, FP.inf, FP.fin 1] (by decide) (by decide)
  obtain ⟨h0, -⟩ := hpos 0 FP.nan (FP.fin 1) (by decide) (by decide)
  obtain ⟨hd0, he0⟩ := h0 (by decide)
  obtain ⟨-, h1⟩ := hpos 1 (FP.fin 1) (FP.fin 1) (by decide) (by decide)
  obtain ⟨hd1, he1⟩ := h1 (by decide)
  exact ⟨hd0, he0, hd1, he1, hnone (by decide)⟩

/-- C7: calling any result accessor before a successful fit has stored a
model signals "no result available": `slope` returns nothing, and
`annotations` and `integral` fail on the missing attributes instead of
returning stale or fabricated data. -/
theorem accessors_before_fit (m : SpecModel) (xToPix : Rat → Nat)
    (xinp : Rat) (svn : Option (List String)) (p : List Rat)
    (hmodel : m.model = none) (hmpp : m.mpp = none) :
    slope m xToPix xinp = none ∧
    annotations m svn = .error Err.attributeError ∧
    integral m p = .error Err.attributeError := by
  refine ⟨?_, ?_, ?_⟩
  · unfold slope
    rw [hmodel]
  · unfold annotations
    rw [hmpp]
  · unfold integral
    rw [hmodel]

/-- A freshly constructed model instance: no fit has run, so none of the
post-fit attributes exist. -/
def mFresh : SpecModel :=
  { npars := 1, npeaks := 1, modelfunc := fun x _ => x,
    shortvarnames := ["A"], model := none, mpp := none, mpperr := none,
    xax := none }

theorem accessors_before_fit_witness :
    slope mFresh (fun _ => 0) 0 = none ∧
    annotations mFresh none = .error Err.attributeError ∧
    integral mFresh [] = .error Err.attributeError :=
  accessors_before_fit mFresh (fun _ => 0) 0 none [] rfl rfl

/-- C8: `integral` returns exactly the sum of the stored model curve's
samples, ignoring its `modelpars` argument and independent of the stored
axis (so of any axis spacing); no trapezoidal or analytic integration is
performed. -/
theorem integral_sums_model (m : SpecModel) (curve p1 p2 : List Rat)
    (h : m.model = some curve) :
    integral m p1 = .ok curve.sum ∧
    integral m p1 = integral m p2 ∧
    (∀ ax1 ax2 : Option (List Rat),
      integral { m with xax := ax1 } p1 = integral { m with xax := ax2 } p1) := by
  refine ⟨?_, rfl, fun ax1 ax2 => rfl⟩
  unfold integral
  rw [h]

/-- A model instance whose stored fit curve is `[1, 2, 3]`. -/
def mCurve : SpecModel :=
  { npars := 1, npeaks := 1, modelfunc := fun x _ => x,
    shortvarnames := ["A"], model := some [1, 2, 3], mpp := none,
    mpperr := none, xax := none }

theorem integral_sums_model_witness :
    integral mCurve [] = .ok 6 ∧
    integral mCurve [] = integral mCurve [4, 5] := by
  obtain ⟨h1, h2, -⟩ := integral_sums_model mCurve [1, 2, 3] [] [4, 5] rfl
  have hs : ([1, 2, 3] : List Rat).sum = 6 := by norm_num
  rw [hs] at h1
  exact ⟨h1, h2⟩

/-- C10: the sanitization writes of `fitter` go through the caller's
array references: after the call the array the caller passed as `data`
holds 0 at every NaN/Inf position and the array passed as `err` holds
infinity there, both unchanged elsewhere; no new arrays are created and
every unrelated reference is untouched. -/
theorem fitter_inplace_mutation (st : Store) (dref eref : Nat)
    (data e : List FP)
    (hne : dref ≠ eref)
    (hd : st.arrays[dref]? = some data)
    (he : st.arrays[eref]? = some e)
    (hbad : data.any FP.isbad = true) :
    ∃ st' data1 e1, fitterSanitizeRef st dref (some eref) = .ok st' ∧
      st'.arrays[dref]? = some data1 ∧
      st'.arrays[eref]? = some e1 ∧
      st'.arrays.length = st.arrays.length ∧
      (∀ (i : Nat) (d ev : FP), data[i]? = some d → e[i]? = some ev →
        (FP.isbad d = true →
          data1[i]? = some (FP.fin 0) ∧ e1[i]? = some FP.inf) ∧
        (FP.isbad d = false →
          data1[i]? = some d ∧ e1[i]? = some ev)) ∧
      (∀ r, r ≠ dref → r ≠ eref → st'.arrays[r]? = st.arrays[r]?) := by
  have hdlt : dref < st.arrays.length := by
    by_contra hc
    rw [List.getElem?_eq_none (by omega)] at hd
    exact absurd hd (by simp)
  have helt : eref < st.arrays.length := by
    by_contra hc
    rw [List.getElem?_eq_none (by omega)] at he
    exact absurd he (by simp)
  have hdD : st.arrays.getD dref [] = data := by
    rw [List.getD_eq_getElem?_getD, hd]
    rfl
  have heD : st.arrays.getD eref [] = e := by
    rw [List.getD_eq_getElem?_getD, he]
    rfl
  have hd2D : ((setArr st eref
      (List.zipWith (fun d ev => if FP.isbad d then FP.inf else ev) data e)
        ).arrays).getD dref [] = data := by
    rw [setArr, List.getD_eq_getElem?_getD,
      List.getElem?_set_ne (Ne.symm hne), hd]
    rfl
  refine ⟨setArr (setArr st eref
      (List.zipWith (fun d ev => if FP.isbad d then FP.inf else ev) data e))
      dref (data.map (fun d => if FP.isbad d then FP.fin 0 else d)),
    data.map (fun d => if FP.isbad d then FP.fin 0 else d),
    List.zipWith (fun d ev => if FP.isbad d then FP.inf else ev) data e,
    ?_, ?_, ?_, ?_, ?_, ?_⟩
  · simp only [fitterSanitizeRef, hdD, heD, hd2D]
    rw [if_pos hbad]
  · show (((st.arrays.set eref _).set dref _))[dref]? = _
    rw [List.getElem?_set_eq (by rw [List.length_set]; exact hdlt)]
  · show (((st.arrays.set eref _).set dref _))[eref]? = _
    rw [List.getElem?_set_ne hne, List.getElem?_set_eq helt]
  · show (((st.arrays.set eref _).set dref _)).length = _
    rw [List.length_set, List.length_set]
  · intro i d ev hdi hevi
    constructor
    · intro hb
      constructor
      · rw [List.getElem?_map, hdi]
        simp [hb]
      · rw [getElem?_zipWith_custom _ data e i d ev hdi hevi]
        simp [hb]
    · intro hb
      constructor
      · rw [List.getElem?_map, hdi]
        simp [hb]
      · rw [getElem?_zipWith_custom _ data e i d ev hdi hevi]
        simp [hb]
  · intro r hrd hre
    show (((st.arrays.set eref _).set dref _))[r]? = _
    rw [List.getElem?_set_ne (Ne.symm hrd), List.getElem?_set_ne (Ne.symm hre)]

/-- A two-array store holding the caller's data and error arrays. -/
def storeW : Store :=
  { arrays := [[FP.nan, FP.fin 1, FP.inf, FP.fin 2],
               [FP.fin 1, FP.fin 1, FP.fin 1, FP.fin 1]] }

theorem fitter_inplace_mutation_witness :
    ∃ st' data1 e1, fitterSanitizeRef storeW 0 (some 1) = .ok st' ∧
      st'.arrays[0]? = some data1 ∧
      st'.arrays[1]? = some e1 ∧
      st'.arrays.length = 2 ∧
      data1[0]? = some (FP.fin 0) ∧ e1[0]? = some FP.inf ∧
      data1[1]? = some (FP.fin 1) ∧ e1[1]? = some (FP.fin 1) := by
  obtain ⟨st', data1, e1, h1, h2, h3, h4, h5, -⟩ :=
    fitter_inplace_mutation storeW 0 1
      [FP.nan, FP.fin 1, FP.inf, FP.fin 2]
      [FP.fin 1, FP.fin 1, FP.fin 1, FP.fin 1]
      (by decide) (by decide) (by decide) (by decide)
  obtain ⟨hb0, -⟩ := h5 0 FP.nan (FP.fin 1) (by decide) (by decide)
  obtain ⟨hd0, he0⟩ := hb0 (by decide)
  obtain ⟨-, hg1⟩ := h5 1 (FP.fin 1) (FP.fin 1) (by decide) (by decide)
  obtain ⟨hd1, he1⟩ := hg1 (by decide)
  exact ⟨st', data1, e1, h1, h2, h3, h4, hd0, he0, hd1, he1⟩

end PySpecKit
